import Mathlib

set_option maxRecDepth 100000

/-!
Formal model of rblineprof (src/ext/rblineprof.c), a line-granularity
wall-clock profiler for Ruby 1.8.

The C code is embedded shallowly:

* `sourcefile_t` becomes `SourceFile`.  The C keeps a pointer `lines`
  together with its allocation size `nlines`; the two are written only
  together (calloc/realloc followed by the `nlines` assignment), so the
  model uses one list whose length plays the role of `nlines`, with the
  empty list standing for the NULL pointer (the code can never have a
  NULL pointer with a non-zero `nlines`: both start zeroed, are set
  together, and are cleared together in `lineprof`).
* `uint64_t` microsecond values become `Nat`.  The clock (`gettimeofday`)
  is monotonic within the sessions the claims consider, so `now -
  last_time` never underflows on those runs and 64-bit wraparound (a
  declared non-goal of the design) is not modelled.
* `realloc` preserves the old prefix and leaves the added slots with
  indeterminate contents.  The indeterminate contents are a parameter
  `j : Nat → Nat` giving the value found in freshly grown slot `i`;
  every concrete execution corresponds to some such `j`, because within
  one session each slot index is freshly exposed by `realloc` at most
  once (capacities only grow).
* The one out-of-bounds write the hook can perform
  (`sourcefile->lines[sourcefile->last_line]` with `last_line >= nlines`)
  is undefined behaviour in C; the model returns `none` there.  Likewise
  `summarize_files` dereferencing a registry value that holds the `Qnil`
  sentinel (an invalid pointer) is modelled as `none`.
* `cleanup_files` ends its `Qnil` branch with a bare `return;` although
  its result is read by `st_foreach`; whether the indeterminate value
  acts as `ST_CONTINUE` (entry kept) or `ST_DELETE` (entry removed) is a
  parameter `keepNeg : Bool` of the session model.
* The regex is external to this file; it is modelled at its boundary as
  a predicate `p : String → Bool` (`rb_reg_search … >= 0`).  Filenames
  are interned `char *` in Ruby 1.8, so the pointer comparisons and
  `st_table` keys of the C code become `String` equality.
* `rb_yield` runs the profiled block; the line events the interpreter
  delivers to `profiler_hook` during it are modelled as the explicit
  list of events passed to `lineprof`.
-/

namespace RBLineprof

/-- The `sourcefile_t` record (rblineprof.c lines 13-20).  `lines = []`
models the NULL `lines` pointer, and `lines.length` models `nlines`. -/
structure SourceFile where
  lines : List Nat
  last_time : Nat
  last_line : Nat
deriving DecidableEq, Repr

/-- The slack added beyond the requested line on every (re)allocation
(the literal `100` at rblineprof.c lines 88 and 94). -/
def SLACK : Nat := 100

/-- A line event delivered by the interpreter: the filename owning the
executing statement (`node->nd_file`), its line (`nd_line(node)`), and
the value `timeofday_usec()` returns when the hook runs. -/
structure Event where
  file : String
  line : Nat
  time : Nat
deriving DecidableEq, Repr

/-- `calloc` of the per-line array (rblineprof.c lines 87-90), reached
when `lines` is NULL: capacity `line + 100`, zero-initialized. -/
def allocIfNeeded (line : Nat) (l : List Nat) : List Nat :=
  if l.isEmpty then List.replicate (line + SLACK) 0 else l

/-- `realloc` to `n` slots: the old contents survive and the added slots
hold whatever the allocator left there (`j` gives slot `i` its value). -/
def growTo (j : Nat → Nat) (l : List Nat) (n : Nat) : List Nat :=
  l ++ (List.range (n - l.length)).map (fun k => j (l.length + k))

/-- The growth step of rblineprof.c lines 92-96: if `line >= nlines`,
regrow to `line + 100`.  Note the C tests the CURRENT line, not the
`last_line` index it is about to write. -/
def growIfNeeded (j : Nat → Nat) (line : Nat) (l : List Nat) : List Nat :=
  if l.length ≤ line then growTo j l (line + SLACK) else l

/-- The body of `profiler_hook` once a tracked `sourcefile` is in hand
(rblineprof.c lines 82-104): if `last_time` is nonzero, allocate/grow,
add `now - last_time` into slot `last_line`, and in every case advance
`last_time`/`last_line`.  Writing at `last_line >= nlines` is an
out-of-bounds heap write in the C, modelled as `none`. -/
def billAndAdvance (j : Nat → Nat) (sf : SourceFile) (line now : Nat) :
    Option SourceFile :=
  if sf.last_time = 0 then
    some ⟨sf.lines, now, line⟩
  else if sf.last_line < (growIfNeeded j line (allocIfNeeded line sf.lines)).length then
    some ⟨(growIfNeeded j line (allocIfNeeded line sf.lines)).set sf.last_line
            ((growIfNeeded j line (allocIfNeeded line sf.lines)).getD sf.last_line 0
              + (now - sf.last_time)),
          now, line⟩
  else
    none

/-- A value stored in the `st_table` registry of regex mode: either the
`Qnil` sentinel for a memoized negative match, or a `sourcefile_t`. -/
inductive RegEntry where
  | notMatched
  | matched (sf : SourceFile)
deriving DecidableEq, Repr

/-- The `st_table` of regex mode as an association list on interned
filenames. -/
abbrev RegState := List (String × RegEntry)

/-- `st_lookup` on the registry. -/
def lookupReg : RegState → String → Option RegEntry
  | [], _ => none
  | (g, e) :: rest, f => if g = f then some e else lookupReg rest f

/-- `st_insert` on the registry: replace the entry if the key is
present, otherwise add it. -/
def setReg : RegState → String → RegEntry → RegState
  | [], f, e => [(f, e)]
  | (g, e0) :: rest, f, e =>
      if g = f then (g, e) :: rest else (g, e0) :: setReg rest f e

/-- One `profiler_hook` event in regex mode (rblineprof.c lines 65-80
plus the shared billing block): memoized negative → no-op; memoized
positive → bill; unknown → run the regex once, then either create a
zeroed record and bill it, or store the `Qnil` sentinel. -/
def hookRegex (p : String → Bool) (j : Nat → Nat) (st : RegState) (ev : Event) :
    Option RegState :=
  match lookupReg st ev.file with
  | some RegEntry.notMatched => some st
  | some (RegEntry.matched sf) =>
      match billAndAdvance j sf ev.line ev.time with
      | none => none
      | some sf2 => some (setReg st ev.file (RegEntry.matched sf2))
  | none =>
      if p ev.file then
        match billAndAdvance j ⟨[], 0, 0⟩ ev.line ev.time with
        | none => none
        | some sf2 => some (setReg st ev.file (RegEntry.matched sf2))
      else
        some (setReg st ev.file RegEntry.notMatched)

/-- The global `rblineprof` struct (rblineprof.c lines 22-38).
`source_filename = some s` is single-file mode, `none` is the NULL
pointer; `source_regex` is the boundary model of the stored Regexp. -/
structure GlobalState where
  enabled : Bool
  source_filename : Option String
  file : SourceFile
  source_regex : Option (String → Bool)
  files : RegState

/-- One `profiler_hook` invocation (rblineprof.c lines 49-105), in
either mode.  A session started by `lineprof` always has a filename or
a regex installed; the residual no-regex case is unreachable there and
modelled as a no-op. -/
def profiler_hook (j : Nat → Nat) (gs : GlobalState) (ev : Event) :
    Option GlobalState :=
  match gs.source_filename with
  | some s =>
      if s = ev.file then
        match billAndAdvance j gs.file ev.line ev.time with
        | none => none
        | some f2 => some { gs with file := f2 }
      else some gs
  | none =>
      match gs.source_regex with
      | some p =>
          match hookRegex p j gs.files ev with
          | none => none
          | some st2 => some { gs with files := st2 }
      | none => some gs

/-- The sequence of hook invocations the interpreter performs while the
profiled block runs. -/
def runHook (j : Nat → Nat) : GlobalState → List Event → Option GlobalState
  | gs, [] => some gs
  | gs, ev :: rest =>
      match profiler_hook j gs ev with
      | none => none
      | some gs2 => runHook j gs2 rest

/-- A run of billing steps on one tracked file, as performed by
`profiler_hook` for the events `(line, time)` of that file. -/
def runSF (j : Nat → Nat) : SourceFile → List (Nat × Nat) → Option SourceFile
  | sf, [] => some sf
  | sf, (l, t) :: rest =>
      match billAndAdvance j sf l t with
      | none => none
      | some sf2 => runSF j sf2 rest

/-- A run of regex-mode hook steps on the registry alone. -/
def runRegex (p : String → Bool) (j : Nat → Nat) :
    RegState → List Event → Option RegState
  | st, [] => some st
  | st, ev :: rest =>
      match hookRegex p j st ev with
      | none => none
      | some st2 => runRegex p j st2 rest

/-- A regex-mode run that also counts how many events evaluate the
pattern against the filename `f`: exactly the events that find `f`
absent from the registry (rblineprof.c line 71-72). -/
def runRegexCount (p : String → Bool) (j : Nat → Nat) (f : String) :
    RegState → List Event → Option (RegState × Nat)
  | st, [] => some (st, 0)
  | st, ev :: rest =>
      match hookRegex p j st ev with
      | none => none
      | some st2 =>
          match runRegexCount p j f st2 rest with
          | none => none
          | some (st3, n) =>
              some (st3, n + (if (lookupReg st ev.file).isNone && (ev.file == f) then 1 else 0))

/-- The report: filename to the per-line microsecond array. -/
abbrev Report := List (String × List Nat)

/-- Hash lookup in the returned report. -/
def lookupRep : Report → String → Option (List Nat)
  | [], _ => none
  | (g, a) :: rest, f => if g = f then some a else lookupRep rest f

/-- `summarize_files` (rblineprof.c lines 127-140): emits one report row
per registry entry.  It has NO guard for the `Qnil` sentinel (unlike
`cleanup_files`), so a `notMatched` entry makes it dereference an
invalid pointer: undefined behaviour, modelled as `none`. -/
def summarize_files : RegState → Option Report
  | [] => some []
  | (_, RegEntry.notMatched) :: _ => none
  | (f, RegEntry.matched sf) :: rest =>
      match summarize_files rest with
      | none => none
      | some r => some ((f, sf.lines) :: r)

/-- `cleanup_files` folded over the registry (rblineprof.c lines
114-125): `matched` entries are freed and deleted (`ST_DELETE`); for the
`Qnil` sentinel the function falls off a bare `return;`, so the value
`st_foreach` reads is indeterminate — `keepNeg` chooses whether it acts
as `ST_CONTINUE` (entry kept) or `ST_DELETE` (entry removed). -/
def cleanup_files (keepNeg : Bool) : RegState → RegState
  | [] => []
  | (f, RegEntry.notMatched) :: rest =>
      if keepNeg then (f, RegEntry.notMatched) :: cleanup_files keepNeg rest
      else cleanup_files keepNeg rest
  | (_, RegEntry.matched _) :: rest => cleanup_files keepNeg rest

/-- A Ruby exception at the `lineprof` boundary: the exception class
(`rb_eArgError` prints as ArgumentError) and the message. -/
structure RubyError where
  cls : String
  msg : String
deriving DecidableEq, Repr

/-- The argument of the public `lineprof` entry point: a String, a
Regexp (modelled at its boundary as a predicate), or any other class. -/
inductive Selector where
  | str (s : String)
  | regex (p : String → Bool)
  | other

/-- The part of `lineprof` after argument validation (rblineprof.c lines
162-189): cleanup of the previous session (note: only `lines`/`nlines`
of the single-file record are reset — `last_time` and `last_line` are
NOT), the hook installed around the block, and the report built from
either the single-file record or `summarize_files`. -/
def lineprofRun (keepNeg : Bool) (j : Nat → Nat) (gs1 : GlobalState)
    (events : List Event) : Option (GlobalState × Except RubyError Report) :=
  match runHook j { gs1 with
                    files := cleanup_files keepNeg gs1.files,
                    file := { gs1.file with lines := [] },
                    enabled := true } events with
  | none => none
  | some gs3 =>
      match gs3.source_filename with
      | some s => some ({ gs3 with enabled := false },
                        Except.ok [(s, gs3.file.lines)])
      | none =>
          match summarize_files gs3.files with
          | none => none
          | some rep => some ({ gs3 with enabled := false }, Except.ok rep)

/-- The public `lineprof` entry point (rblineprof.c lines 142-190).
`blockGiven` models `rb_block_given_p()`, `events` the line events the
interpreter delivers while the block runs.  The result is `none` when
the execution runs into undefined behaviour, otherwise the final global
state paired with the raised error or the returned report. -/
def lineprof (keepNeg : Bool) (j : Nat → Nat) (gs : GlobalState) (sel : Selector)
    (blockGiven : Bool) (events : List Event) :
    Option (GlobalState × Except RubyError Report) :=
  if blockGiven = false then
    some (gs, Except.error ⟨"ArgumentError", "block required"⟩)
  else if gs.enabled then
    some (gs, Except.error ⟨"ArgumentError", "profiler is already enabled"⟩)
  else
    match sel with
    | Selector.str s =>
        lineprofRun keepNeg j { gs with source_filename := some s } events
    | Selector.regex p =>
        lineprofRun keepNeg j
          { gs with source_regex := some p, source_filename := none } events
    | Selector.other =>
        some (gs, Except.error ⟨"ArgumentError", "argument must be String or Regexp"⟩)

/-- The state `Init_rblineprof` leaves behind (rblineprof.c lines
203-212): disabled, no filename, zeroed single-file record, no regex,
empty registry. -/
def init_state : GlobalState :=
  { enabled := false
    source_filename := none
    file := ⟨[], 0, 0⟩
    source_regex := none
    files := [] }

/-- A run in which every slot `realloc` exposes happens to contain 0. -/
def j0 : Nat → Nat := fun _ => 0

/-- A run in which every slot `realloc` exposes happens to contain 7. -/
def j7 : Nat → Nat := fun _ => 7

/-- The pattern that matches exactly the filename `a`. -/
def pa : String → Bool := fun s => s == "a"

/-- The report of a successful `lineprof` call, if any. -/
def reportOf (r : Option (GlobalState × Except RubyError Report)) : Option Report :=
  match r with
  | some (_, Except.ok rep) => some rep
  | _ => none

/-- The class of the error a `lineprof` call raised, if any. -/
def errClsOf (r : Option (GlobalState × Except RubyError Report)) : Option String :=
  match r with
  | some (_, Except.error e) => some e.cls
  | _ => none

/-- Entry `i` of the report row of file `f`, if the call returned a
report containing `f`. -/
def lineVal (r : Option (GlobalState × Except RubyError Report)) (f : String) (i : Nat) :
    Option Nat :=
  match reportOf r with
  | some rep =>
      match lookupRep rep f with
      | some a => some (a.getD i 0)
      | none => none
  | none => none

/-- What a regex-mode event on an untracked filename (memoized negative,
or unknown and rejected by the pattern) leaves in the registry. -/
def untrackedResult (st : RegState) (ev : Event) : RegState :=
  if (lookupReg st ev.file).isNone then setReg st ev.file RegEntry.notMatched else st

/-- Strictly increasing timestamps, starting strictly after `t`. -/
def incFromB : Nat → List (Nat × Nat) → Bool
  | _, [] => true
  | t, (_, t2) :: rest => decide (t < t2) && incFromB t2 rest

/-- The timestamp of the last event, `t` if there is none. -/
def lastTimeD : Nat → List (Nat × Nat) → Nat
  | t, [] => t
  | _, (_, t2) :: rest => lastTimeD t2 rest

/-- The spec's worked-example session with its stated timestamps
(t = 0, 1000, 2500, 3000). -/
def worked_example_zero_run : Option (GlobalState × Except RubyError Report) :=
  lineprof false j0 init_state (Selector.str ("a")) true
    [⟨"a", 1, 0⟩, ⟨"a", 2, 1000⟩, ⟨"a", 1, 2500⟩, ⟨"a", 3, 3000⟩]

/-- The worked-example session with every timestamp shifted by +1 so the
first event's timestamp is not the `last_time = 0` sentinel. -/
def worked_example_run : Option (GlobalState × Except RubyError Report) :=
  lineprof false j0 init_state (Selector.str ("a")) true
    [⟨"a", 1, 1⟩, ⟨"a", 2, 1001⟩, ⟨"a", 1, 2501⟩, ⟨"a", 3, 3001⟩]

/-- First session: single-file mode on `a`, one event (line 1, t=100). -/
def c6run1 : Option (GlobalState × Except RubyError Report) :=
  lineprof false j0 init_state (Selector.str ("a")) true [⟨"a", 1, 100⟩]

/-- Second session started from the state the first one left behind:
single-file mode on `a` again, one event (line 5, t=200). -/
def c6run2 : Option (GlobalState × Except RubyError Report) :=
  match c6run1 with
  | some (g1, _) => lineprof false j0 g1 (Selector.str ("a")) true [⟨"a", 5, 200⟩]
  | none => none

/-- A global state in which a session is currently enabled. -/
def enabled_state : GlobalState :=
  { init_state with enabled := true }

end RBLineprof

namespace RBLineprof

/-- C1: the claim says every billing write of step 3 of the timing
engine lands strictly below the array's capacity.  It does not: the code
grows the array by the CURRENT event's line (rblineprof.c line 93) but
writes at the PREVIOUS event's line (line 99).  After an event at line
200 followed by one at line 1, it allocates 1 + 100 = 101 slots and then
writes slot 200 — an out-of-bounds heap write, `none` in the model; the
whole session's execution is undefined. -/
theorem C1_oob_write :
    billAndAdvance j0 ⟨[], 1, 200⟩ 1 2 = none ∧
    runSF j0 ⟨[], 0, 0⟩ [(200, 1), (1, 2)] = none ∧
    lineprof false j0 init_state (Selector.str ("a")) true
      [⟨"a", 200, 1⟩, ⟨"a", 1, 2⟩] = none := by
  exact ⟨rfl, rfl, rfl⟩

/-- C2 counterexample: on the claim's exact events (t = 0, 1000, 2500,
3000) the report's entry for line 1 is 500, not the claimed 1500.  The
first event's timestamp 0 coincides with the `last_time = 0` sentinel
for "no previous event" (rblineprof.c line 85), so the t=0 event cannot
open a billing interval and the 1000 µs of line 1's first run are
dropped. -/
theorem C2_cex :
    lineVal worked_example_zero_run ("a") 1 = some 500 ∧
    lineVal worked_example_zero_run ("a") 1 ≠ some 1500 ∧
    lineVal worked_example_zero_run ("a") 2 = some 1500 ∧
    lineVal worked_example_zero_run ("a") 3 = some 0 := by
  refine ⟨by decide, by decide, by decide, by decide⟩

/-- C2 (amended): the worked example holds once the session starts at a
nonzero timestamp: with the same events shifted by +1 (t = 1, 1001,
2501, 3001) the report satisfies report[a][1] = 1500, report[a][2] =
1500, report[a][3] = 0. -/
theorem C2_amended :
    lineVal worked_example_run ("a") 1 = some 1500 ∧
    lineVal worked_example_run ("a") 2 = some 1500 ∧
    lineVal worked_example_run ("a") 3 = some 0 := by
  refine ⟨by decide, by decide, by decide⟩

/-- C3 counterexample: two events for one tracked file at strictly
increasing timestamps t1 = 0 < t2 = 5 record a total of 0, not
t2 − t1 = 5: the first event's timestamp 0 is the "no previous event"
sentinel, so the interval [0, 5) is never billed. -/
theorem C3_cex :
    (runSF j0 ⟨[], 0, 0⟩ [(1, 0), (1, 5)]).map (fun s => s.lines.sum) = some 0 ∧
    (5 : Nat) - 0 ≠ 0 := by
  exact ⟨by decide, by decide⟩

/-- C4: the claim says regrowth zero-fills the newly added slots.  The
code's regrowth uses `realloc` with no zero-fill (rblineprof.c line 95),
so the added slots keep whatever the allocator left there — here
modelled as 7.  Run: events (line 1, t=1), (line 1, t=2), (line 200,
t=3).  The third event regrows 101 → 300 slots; afterwards slot 150,
which was never accumulated, holds 7, while the previously recorded
slot 1 was preserved by the growth (value 1 before the third event's
billing added another 1).  The report would expose the junk. -/
theorem C4_realloc_junk :
    (runSF j7 ⟨[], 0, 0⟩ [(1, 1), (1, 2), (200, 3)]).map
        (fun s => (s.lines.getD 150 0, s.lines.getD 1 0, s.lines.length))
      = some (7, 2, 300) ∧
    (growTo j7 ((List.replicate 101 0).set 1 1) 300).getD 1 0 = 1 ∧
    (growTo j7 ((List.replicate 101 0).set 1 1) 300).getD 150 0 = 7 := by
  refine ⟨by decide, by decide, by decide⟩

/-- C5 counterexample: calling `lineprof` while a session is enabled
raises `rb_eArgError` ("profiler is already enabled", rblineprof.c line
149) — the very same exception class as the missing-block error, not a
distinct StateError kind as the claim states. -/
theorem C5_cex :
    errClsOf (lineprof false j0 enabled_state (Selector.str ("a")) true []) =
      some ("ArgumentError") ∧
    errClsOf (lineprof false j0 init_state (Selector.str ("a")) false []) =
      some ("ArgumentError") := by
  exact ⟨rfl, rfl⟩

/-- C6: the claim says all prior-session state is discarded before a new
session starts.  The cleanup (rblineprof.c lines 162-168) resets only
`lines`/`nlines` of the single-file record; `last_time` and `last_line`
survive.  Session 1 on file `a` sees one event (line 1, t=100) and
correctly reports no billed time; session 2 on the same file sees one
event (line 5, t=200) and reports 100 µs on line 1 — time billed from
session 1's stale `last_time`/`last_line`, though a session with a
single event should bill nothing. -/
theorem C6_stale_state :
    reportOf c6run1 = some [(("a"), [])] ∧
    lineVal c6run2 ("a") 1 = some 100 ∧
    lineVal c6run2 ("a") 1 ≠ some 0 := by
  refine ⟨by decide, by decide, by decide⟩

/-- C7: an untracked filename indeed never gets a `sourcefile_t`
allocated (the registry holds only the `Qnil` sentinel for `b`), but the
claim's second half fails: producing the report dereferences that
sentinel, because `summarize_files` (rblineprof.c lines 127-140) lacks
the `Qnil` guard that `cleanup_files` has — undefined behaviour
(`none`) instead of a report with `b` absent. -/
theorem C7_untracked_report_ub :
    runRegex pa j0 [] [⟨"b", 1, 5⟩] = some [(("b"), RegEntry.notMatched)] ∧
    summarize_files [(("b"), RegEntry.notMatched)] = none ∧
    lineprof false j0 init_state (Selector.regex pa) true [⟨"b", 1, 5⟩] = none := by
  exact ⟨rfl, rfl, rfl⟩

/-- C9 counterexample: on the claim's exact inputs (pattern tracking `a`
only, events (a,1,t=0), (b,9,t=500), (a,2,t=900)) there is no report at
all, let alone one with report[a][1] = 900: the t=0 event cannot open a
billing interval (sentinel collision), so nothing is ever billed to
line 1, and report materialization hits undefined behaviour when
`summarize_files` dereferences `b`'s `Qnil` sentinel. -/
theorem C9_cex :
    lineprof false j0 init_state (Selector.regex pa) true
      [⟨"a", 1, 0⟩, ⟨"b", 9, 500⟩, ⟨"a", 2, 900⟩] = none ∧
    lineVal (lineprof false j0 init_state (Selector.regex pa) true
      [⟨"a", 1, 0⟩, ⟨"b", 9, 500⟩, ⟨"a", 2, 900⟩]) ("a") 1 ≠ some 900 := by
  exact ⟨rfl, by decide⟩

/-- C5 (amended): a re-entrant `lineprof` call (block given, session
already enabled) raises ArgumentError with message "profiler is already
enabled" — the same exception class as the other argument errors, not a
distinct kind — and returns with the global state exactly as it was:
the check precedes every mutation (rblineprof.c line 148). -/
theorem C5_amended (keepNeg : Bool) (j : Nat → Nat) (gs : GlobalState)
    (sel : Selector) (evs : List Event) (h : gs.enabled = true) :
    lineprof keepNeg j gs sel true evs
      = some (gs, Except.error ⟨"ArgumentError", "profiler is already enabled"⟩) := by
  simp [lineprof, h]

/-- Witness for C5_amended at a concrete enabled state. -/
theorem C5_amended_witness :
    lineprof false j0 enabled_state (Selector.str ("a")) true [⟨"a", 1, 5⟩]
      = some (enabled_state,
          Except.error ⟨"ArgumentError", "profiler is already enabled"⟩) :=
  C5_amended false j0 enabled_state (Selector.str ("a")) [⟨"a", 1, 5⟩] rfl

/-- `st_insert` semantics of the registry lookup. -/
theorem lookupReg_setReg (st : RegState) (k : String) (e : RegEntry) (f : String) :
    lookupReg (setReg st k e) f = if k = f then some e else lookupReg st f := by
  induction st with
  | nil => simp [setReg, lookupReg]
  | cons he rest ih =>
    obtain ⟨g, e0⟩ := he
    simp only [setReg]
    by_cases hgk : g = k
    · subst hgk
      rw [if_pos rfl]
      by_cases hgf : g = f
      · simp [lookupReg, hgf]
      · simp [lookupReg, hgf]
    · rw [if_neg hgk]
      by_cases hgf : g = f
      · have hkf : ¬ (k = f) := fun hc => hgk (hgf.trans hc.symm)
        simp [lookupReg, hgf, hkf]
      · simp [lookupReg, hgf, ih]

/-- After a successful regex-mode hook step, the event's filename is
memoized (either as a record or as the sentinel). -/
theorem hookRegex_lookup_self (p : String → Bool) (j : Nat → Nat)
    (st st2 : RegState) (ev : Event) (h : hookRegex p j st ev = some st2) :
    (lookupReg st2 ev.file).isSome = true := by
  cases hl : lookupReg st ev.file with
  | some e =>
    cases e with
    | notMatched =>
      simp only [hookRegex, hl] at h
      simp at h
      subst h
      simp [hl]
    | matched sf =>
      simp only [hookRegex, hl] at h
      cases hb : billAndAdvance j sf ev.line ev.time with
      | none => simp only [hb] at h; simp at h
      | some sf2 =>
        simp only [hb] at h
        simp at h
        subst h
        simp [lookupReg_setReg]
  | none =>
    simp only [hookRegex, hl] at h
    by_cases hp : p ev.file = true
    · rw [if_pos hp] at h
      cases hb : billAndAdvance j ⟨[], 0, 0⟩ ev.line ev.time with
      | none => simp only [hb] at h; simp at h
      | some sf2 =>
        simp only [hb] at h
        simp at h
        subst h
        simp [lookupReg_setReg]
    · rw [if_neg hp] at h
      simp at h
      subst h
      simp [lookupReg_setReg]

/-- A regex-mode hook step never forgets a memoized filename. -/
theorem hookRegex_lookup_mono (p : String → Bool) (j : Nat → Nat)
    (st st2 : RegState) (ev : Event) (f : String)
    (hf : (lookupReg st f).isSome = true)
    (h : hookRegex p j st ev = some st2) :
    (lookupReg st2 f).isSome = true := by
  cases hl : lookupReg st ev.file with
  | some e =>
    cases e with
    | notMatched => simp only [hookRegex, hl] at h; simp at h; subst h; exact hf
    | matched sf =>
      simp only [hookRegex, hl] at h
      cases hb : billAndAdvance j sf ev.line ev.time with
      | none => simp only [hb] at h; simp at h
      | some sf2 =>
        simp only [hb] at h; simp at h; subst h
        by_cases hef : ev.file = f
        · simp [lookupReg_setReg, hef]
        · simp [lookupReg_setReg, hef, hf]
  | none =>
    simp only [hookRegex, hl] at h
    by_cases hp : p ev.file = true
    · rw [if_pos hp] at h
      cases hb : billAndAdvance j ⟨[], 0, 0⟩ ev.line ev.time with
      | none => simp only [hb] at h; simp at h
      | some sf2 =>
        simp only [hb] at h; simp at h; subst h
        by_cases hef : ev.file = f
        · simp [lookupReg_setReg, hef]
        · simp [lookupReg_setReg, hef, hf]
    · rw [if_neg hp] at h
      simp at h; subst h
      by_cases hef : ev.file = f
      · simp [lookupReg_setReg, hef]
      · simp [lookupReg_setReg, hef, hf]

/-- A regex-mode hook step touches no registry entry other than the
event's own filename. -/
theorem hookRegex_lookup_other (p : String → Bool) (j : Nat → Nat)
    (st st2 : RegState) (ev : Event) (g : String)
    (hg : g ≠ ev.file) (h : hookRegex p j st ev = some st2) :
    lookupReg st2 g = lookupReg st g := by
  have hne : ¬ (ev.file = g) := fun hc => hg hc.symm
  cases hl : lookupReg st ev.file with
  | some e =>
    cases e with
    | notMatched => simp only [hookRegex, hl] at h; simp at h; subst h; rfl
    | matched sf =>
      simp only [hookRegex, hl] at h
      cases hb : billAndAdvance j sf ev.line ev.time with
      | none => simp only [hb] at h; simp at h
      | some sf2 =>
        simp only [hb] at h; simp at h; subst h
        simp [lookupReg_setReg, hne]
  | none =>
    simp only [hookRegex, hl] at h
    by_cases hp : p ev.file = true
    · rw [if_pos hp] at h
      cases hb : billAndAdvance j ⟨[], 0, 0⟩ ev.line ev.time with
      | none => simp only [hb] at h; simp at h
      | some sf2 =>
        simp only [hb] at h; simp at h; subst h
        simp [lookupReg_setReg, hne]
    · rw [if_neg hp] at h
      simp at h; subst h
      simp [lookupReg_setReg, hne]

/-- Once a filename is memoized, no later event in the run evaluates the
pattern on it. -/
theorem runRegexCount_zero (p : String → Bool) (j : Nat → Nat) (f : String) :
    ∀ (evs : List Event) (st st3 : RegState) (n : Nat),
      (lookupReg st f).isSome = true →
      runRegexCount p j f st evs = some (st3, n) → n = 0 := by
  intro evs
  induction evs with
  | nil =>
    intro st st3 n _ h
    simp [runRegexCount] at h
    omega
  | cons ev rest ih =>
    intro st st3 n hf h
    simp only [runRegexCount] at h
    cases hk : hookRegex p j st ev with
    | none => simp only [hk] at h; simp at h
    | some st2 =>
      simp only [hk] at h
      cases hr : runRegexCount p j f st2 rest with
      | none => simp only [hr] at h; simp at h
      | some pr =>
        obtain ⟨st4, m⟩ := pr
        simp only [hr] at h
        have hm : m = 0 := ih st2 st4 m (hookRegex_lookup_mono p j st st2 ev f hf hk) hr
        have hc : ((lookupReg st ev.file).isNone && (ev.file == f)) = false := by
          by_cases hef : ev.file = f
          · subst hef
            cases hx : lookupReg st ev.file with
            | none => rw [hx] at hf; simp at hf
            | some e => simp [hx]
          · have hb : (ev.file == f) = false := by simp [hef]
            simp [hb]
        rw [hc] at h
        simp at h
        omega

/-- From any starting registry, a run evaluates the pattern on a given
filename at most once. -/
theorem runRegexCount_le_one (p : String → Bool) (j : Nat → Nat) (f : String) :
    ∀ (evs : List Event) (st st3 : RegState) (n : Nat),
      runRegexCount p j f st evs = some (st3, n) → n ≤ 1 := by
  intro evs
  induction evs with
  | nil =>
    intro st st3 n h
    simp [runRegexCount] at h
    omega
  | cons ev rest ih =>
    intro st st3 n h
    simp only [runRegexCount] at h
    cases hk : hookRegex p j st ev with
    | none => simp only [hk] at h; simp at h
    | some st2 =>
      simp only [hk] at h
      cases hr : runRegexCount p j f st2 rest with
      | none => simp only [hr] at h; simp at h
      | some pr =>
        obtain ⟨st4, m⟩ := pr
        simp only [hr] at h
        by_cases hc : ((lookupReg st ev.file).isNone && (ev.file == f)) = true
        · have hef : ev.file = f := by
            have hand := (Bool.and_eq_true _ _).mp hc
            exact eq_of_beq hand.2
          have hs : (lookupReg st2 f).isSome = true := by
            rw [← hef]
            exact hookRegex_lookup_self p j st st2 ev hk
          have hm : m = 0 := runRegexCount_zero p j f rest st2 st4 m hs hr
          rw [hc] at h
          simp at h
          omega
        · have hc2 : ((lookupReg st ev.file).isNone && (ev.file == f)) = false := by
            cases hx : ((lookupReg st ev.file).isNone && (ev.file == f)) with
            | true => exact absurd hx hc
            | false => rfl
          rw [hc2] at h
          simp at h
          have hm : m ≤ 1 := ih st2 st4 m hr
          omega

/-- C8: in pattern mode the pattern is evaluated against any given
filename at most once per session.  An event evaluates the pattern
exactly when its filename is absent from the registry (rblineprof.c
lines 66-79); starting from the empty registry of a fresh session, any
run of events — whatever files, lines and timestamps they carry —
performs at most one evaluation for the filename `f`. -/
theorem C8_memoized (p : String → Bool) (j : Nat → Nat) (f : String)
    (evs : List Event) (stf : RegState) (n : Nat)
    (h : runRegexCount p j f [] evs = some (stf, n)) : n ≤ 1 :=
  runRegexCount_le_one p j f evs [] stf n h

/-- Witness for C8_memoized: two events on file `a` evaluate the
pattern once. -/
theorem C8_memoized_witness :
    runRegexCount pa j0 ("a") [] [⟨"a", 1, 1⟩, ⟨"a", 1, 2⟩]
      = some ([(("a"), RegEntry.matched ⟨(List.replicate 101 0).set 1 1, 2, 1⟩)], 1) ∧
    (1 : Nat) ≤ 1 := by
  refine ⟨by decide, ?_⟩
  exact C8_memoized pa j0 ("a") [⟨"a", 1, 1⟩, ⟨"a", 1, 2⟩]
    [(("a"), RegEntry.matched ⟨(List.replicate 101 0).set 1 1, 2, 1⟩)] 1 (by decide)

/-- C9 (amended): a regex-mode event whose filename is untracked — its
registry entry is the memoized negative, or it is unknown and the
pattern rejects it — is a pure no-op on every other file's state: the
hook merely (re)writes the filename's own sentinel entry and leaves
every other registry entry, hence every tracked file's `last_time`,
`last_line` and line array, unchanged, and allocates no `sourcefile_t`.
Concretely, with the claim's events shifted to a nonzero start
((a,1,t=1), (b,9,t=501), (a,2,t=901)) the tracked file `a` ends with
900 µs on line 1 while `b` holds only the sentinel; the claimed final
report itself is unreachable because of the `summarize_files` defect
recorded at C7. -/
theorem C9_amended :
    (∀ (p : String → Bool) (j : Nat → Nat) (st : RegState) (ev : Event),
        (lookupReg st ev.file = some RegEntry.notMatched ∨
          (lookupReg st ev.file = none ∧ p ev.file = false)) →
        hookRegex p j st ev = some (untrackedResult st ev) ∧
          ∀ g, g ≠ ev.file → lookupReg (untrackedResult st ev) g = lookupReg st g) ∧
    runRegex pa j0 [] [⟨"a", 1, 1⟩, ⟨"b", 9, 501⟩, ⟨"a", 2, 901⟩]
      = some [(("a"), RegEntry.matched ⟨(List.replicate 102 0).set 1 900, 901, 2⟩),
              (("b"), RegEntry.notMatched)] := by
  constructor
  · intro p j st ev h
    cases h with
    | inl h =>
      refine ⟨by simp [hookRegex, h, untrackedResult], ?_⟩
      intro g hg
      simp [untrackedResult, h]
    | inr h =>
      obtain ⟨h1, h2⟩ := h
      refine ⟨by simp [hookRegex, h1, h2, untrackedResult], ?_⟩
      intro g hg
      have hne : ¬ (ev.file = g) := fun hc => hg hc.symm
      simp [untrackedResult, h1, lookupReg_setReg, hne]
  · decide

/-- Witness for the universally quantified part of C9_amended: an event
for the rejected file `b` on the empty registry. -/
theorem C9_amended_witness :
    hookRegex pa j0 [] ⟨"b", 1, 5⟩ = some (untrackedResult [] ⟨"b", 1, 5⟩) ∧
    lookupReg (untrackedResult [] ⟨"b", 1, 5⟩) ("a") = lookupReg [] ("a") := by
  have h := C9_amended.1 pa j0 [] ⟨"b", 1, 5⟩ (Or.inr ⟨rfl, by decide⟩)
  exact ⟨h.1, h.2 ("a") (by decide)⟩

/-- Adding `d` into slot `i` raises the total by `d`. -/
theorem sum_set_getD (l : List Nat) (i d : Nat) (h : i < l.length) :
    (l.set i (l.getD i 0 + d)).sum = l.sum + d := by
  induction l generalizing i with
  | nil => simp at h
  | cons a tl ih =>
    cases i with
    | zero =>
      simp [List.sum_cons, List.getD]
      omega
    | succ m =>
      have hm : m < tl.length := by simpa using h
      rw [List.getD_cons_succ, List.set_cons_succ, List.sum_cons, List.sum_cons,
          ih m hm]
      omega

/-- Entries of a replicate list. -/
theorem getD_replicate_of_lt (n i a d : Nat) (h : i < n) :
    (List.replicate n a).getD i d = a := by
  induction n generalizing i with
  | zero => omega
  | succ m ih =>
    cases i with
    | zero => simp [List.replicate]
    | succ k =>
      simp only [List.replicate, List.getD_cons_succ]
      exact ih k (by omega)

/-- Strictly increasing timestamps never decrease the final timestamp. -/
theorem lastTimeD_ge (l : List (Nat × Nat)) :
    ∀ t, incFromB t l = true → t ≤ lastTimeD t l := by
  induction l with
  | nil => intro t _; simp [lastTimeD]
  | cons pr rest ih =>
    obtain ⟨l2, t2⟩ := pr
    intro t h
    simp [incFromB] at h
    have h2 := ih t2 h.2
    simp only [lastTimeD]
    omega

/-- In the steady regime — array allocated, previous line within
capacity, current line within capacity — a billing step is exactly an
in-bounds add at `last_line` plus the advance of `last_time`/`last_line`. -/
theorem billAndAdvance_steady (j : Nat → Nat) (sf : SourceFile) (line now : Nat)
    (h0 : sf.last_time ≠ 0) (hne : sf.lines ≠ [])
    (hline : line < sf.lines.length) (hll : sf.last_line < sf.lines.length) :
    billAndAdvance j sf line now
      = some ⟨sf.lines.set sf.last_line
                (sf.lines.getD sf.last_line 0 + (now - sf.last_time)), now, line⟩ := by
  have he : sf.lines.isEmpty = false := by
    cases hx : sf.lines with
    | nil => exact absurd hx hne
    | cons a tl => rfl
  have ha : allocIfNeeded line sf.lines = sf.lines := by
    simp [allocIfNeeded, he]
  have hgl : ¬ (sf.lines.length ≤ line) := by omega
  have hg : growIfNeeded j line (allocIfNeeded line sf.lines) = sf.lines := by
    rw [ha]; simp [growIfNeeded, hgl]
  simp [billAndAdvance, h0, hg, hll]

/-- The steady phase of a single-file run: once the array is allocated
and every line (as well as the carried `last_line`) stays within its
capacity, the run succeeds and the total grows by exactly the elapsed
time from the carried `last_time` to the final event. -/
theorem runSF_steady (j : Nat → Nat) (rest : List (Nat × Nat)) :
    ∀ (sf : SourceFile), sf.last_time ≠ 0 → sf.lines ≠ [] →
      sf.last_line < sf.lines.length →
      (∀ pr ∈ rest, pr.1 < sf.lines.length) →
      incFromB sf.last_time rest = true →
      (runSF j sf rest).map (fun s => s.lines.sum)
        = some (sf.lines.sum + (lastTimeD sf.last_time rest - sf.last_time)) := by
  induction rest with
  | nil =>
    intro sf h0 hne hll hcap hinc
    simp [runSF, lastTimeD]
  | cons pr rest ih =>
    obtain ⟨l, t⟩ := pr
    intro sf h0 hne hll hcap hinc
    have hcap0 : l < sf.lines.length := hcap (l, t) (by simp)
    simp [incFromB] at hinc
    obtain ⟨hlt, hinc1⟩ := hinc
    have hstep := billAndAdvance_steady j sf l t h0 hne hcap0 hll
    simp only [runSF, hstep]
    have hlen : (sf.lines.set sf.last_line
        (sf.lines.getD sf.last_line 0 + (t - sf.last_time))).length
        = sf.lines.length := by simp
    have hlp : 0 < sf.lines.length := by
      cases hx : sf.lines with
      | nil => exact absurd hx hne
      | cons a tl => simp [hx]
    have hne2 : sf.lines.set sf.last_line
        (sf.lines.getD sf.last_line 0 + (t - sf.last_time)) ≠ [] := by
      intro hc
      have hcl := congrArg List.length hc
      rw [hlen, List.length_nil] at hcl
      omega
    have h2 := ih ⟨sf.lines.set sf.last_line
        (sf.lines.getD sf.last_line 0 + (t - sf.last_time)), t, l⟩
      (show t ≠ 0 by omega)
      hne2
      (show l < (sf.lines.set sf.last_line
          (sf.lines.getD sf.last_line 0 + (t - sf.last_time))).length by
        rw [hlen]; exact hcap0)
      (by
        intro q hq
        show q.1 < (sf.lines.set sf.last_line
            (sf.lines.getD sf.last_line 0 + (t - sf.last_time))).length
        rw [hlen]
        exact hcap q (List.mem_cons_of_mem _ hq))
      hinc1
    rw [h2]
    have hsum : (sf.lines.set sf.last_line
        (sf.lines.getD sf.last_line 0 + (t - sf.last_time))).sum
        = sf.lines.sum + (t - sf.last_time) := sum_set_getD sf.lines sf.last_line _ hll
    have hlast : t ≤ lastTimeD t rest := lastTimeD_ge rest t hinc1
    show some ((sf.lines.set sf.last_line
        (sf.lines.getD sf.last_line 0 + (t - sf.last_time))).sum
          + (lastTimeD t rest - t))
      = some (sf.lines.sum + (lastTimeD sf.last_time ((l, t) :: rest) - sf.last_time))
    rw [hsum]
    show _ = some (sf.lines.sum + (lastTimeD t rest - sf.last_time))
    congr 1
    omega

/-- C3 (amended): conservation holds for a single tracked file provided
the session starts at a nonzero timestamp (t1 > 0; a first event at the
sentinel timestamp 0 cannot open billing, cf. the C3 counterexample) and
all event lines lie within SLACK of each other (so the run never
regrows the array — regrowth injects uninitialized values, cf. C4 — and
never performs the out-of-bounds write of C1): for strictly increasing
timestamps the recorded entries sum to tN − t1. -/
theorem C3_amended (j : Nat → Nat) (l1 t1 : Nat) (rest : List (Nat × Nat))
    (hpos : 0 < t1)
    (hinc : incFromB t1 rest = true)
    (hwin : ∀ p1 ∈ (l1, t1) :: rest, ∀ q1 ∈ (l1, t1) :: rest,
      p1.1 < q1.1 + SLACK) :
    (runSF j ⟨[], 0, 0⟩ ((l1, t1) :: rest)).map (fun s => s.lines.sum)
      = some (lastTimeD t1 rest - t1) := by
  have h1 : billAndAdvance j ⟨[], 0, 0⟩ l1 t1 = some ⟨[], t1, l1⟩ := by
    simp [billAndAdvance]
  simp only [runSF, h1]
  cases rest with
  | nil => simp [runSF, lastTimeD]
  | cons pr rest2 =>
    obtain ⟨l2, t2⟩ := pr
    have hl1 : l1 < l2 + SLACK := hwin (l1, t1) (by simp) (l2, t2) (by simp)
    simp [incFromB] at hinc
    obtain ⟨h12, hinc2⟩ := hinc
    have ht1 : ¬ (t1 = 0) := by omega
    have e2 : growIfNeeded j l2 (List.replicate (l2 + SLACK) 0)
        = List.replicate (l2 + SLACK) 0 := by
      have hcnd : ¬ ((List.replicate (l2 + SLACK) 0).length ≤ l2) := by
        rw [List.length_replicate]
        simp [SLACK]
      rw [growIfNeeded, if_neg hcnd]
    have h2 : billAndAdvance j ⟨[], t1, l1⟩ l2 t2
        = some ⟨(List.replicate (l2 + SLACK) 0).set l1 (t2 - t1), t2, l2⟩ := by
      show (if t1 = 0 then some (⟨[], t2, l2⟩ : SourceFile)
        else if l1 < (growIfNeeded j l2 (allocIfNeeded l2 [])).length then
          some (⟨(growIfNeeded j l2 (allocIfNeeded l2 [])).set l1
                  ((growIfNeeded j l2 (allocIfNeeded l2 [])).getD l1 0 + (t2 - t1)),
                t2, l2⟩ : SourceFile)
        else none)
          = some ⟨(List.replicate (l2 + SLACK) 0).set l1 (t2 - t1), t2, l2⟩
      have e1 : allocIfNeeded l2 ([] : List Nat) = List.replicate (l2 + SLACK) 0 := rfl
      rw [if_neg ht1, e1, e2, List.length_replicate, if_pos hl1,
          getD_replicate_of_lt (l2 + SLACK) l1 0 0 hl1, Nat.zero_add]
    simp only [runSF, h2]
    have hsteady := runSF_steady j rest2
      ⟨(List.replicate (l2 + SLACK) 0).set l1 (t2 - t1), t2, l2⟩
      (show t2 ≠ 0 by omega)
      (by
        intro hc
        have hcl := congrArg List.length hc
        simp [SLACK] at hcl)
      (show l2 < ((List.replicate (l2 + SLACK) 0).set l1 (t2 - t1)).length by
        simp [SLACK])
      (by
        intro q hq
        show q.1 < ((List.replicate (l2 + SLACK) 0).set l1 (t2 - t1)).length
        have hw := hwin q (List.mem_cons_of_mem _ (List.mem_cons_of_mem _ hq))
          (l2, t2) (by simp)
        simpa using hw)
      hinc2
    rw [hsteady]
    have hsum : ((List.replicate (l2 + SLACK) 0).set l1 (t2 - t1)).sum
        = t2 - t1 := by
      have hx := sum_set_getD (List.replicate (l2 + SLACK) 0) l1 (t2 - t1)
        (by simp [hl1])
      rw [getD_replicate_of_lt (l2 + SLACK) l1 0 0 hl1] at hx
      simpa using hx
    have hlast : t2 ≤ lastTimeD t2 rest2 := lastTimeD_ge rest2 t2 hinc2
    show some (((List.replicate (l2 + SLACK) 0).set l1 (t2 - t1)).sum
        + (lastTimeD t2 rest2 - t2))
      = some (lastTimeD t2 rest2 - t1)
    rw [hsum]
    congr 1
    omega

/-- Witness for C3_amended: events (line 1, t=5), (line 2, t=7),
(line 1, t=9) sum to 9 − 5 = 4. -/
theorem C3_amended_witness :
    (runSF j0 ⟨[], 0, 0⟩ [(1, 5), (2, 7), (1, 9)]).map (fun s => s.lines.sum)
      = some 4 :=
  C3_amended j0 1 5 [(2, 7), (1, 9)] (by decide) (by decide) (by decide)

/-- In single-file mode, events for other files leave the whole global
state untouched. -/
theorem runHook_single_frame (j : Nat → Nat) (s : String) :
    ∀ (evs : List Event) (gs : GlobalState), gs.source_filename = some s →
      (∀ e ∈ evs, e.file ≠ s) → runHook j gs evs = some gs := by
  intro evs
  induction evs with
  | nil => intro gs _ _; rfl
  | cons ev rest ih =>
    intro gs hsf hne
    have hnes : ¬ (s = ev.file) := fun hc => (hne ev (by simp)) hc.symm
    have h1 : profiler_hook j gs ev = some gs := by
      simp [profiler_hook, hsf, hnes]
    simp only [runHook, h1]
    exact ih gs hsf (fun e he => hne e (List.mem_cons_of_mem _ he))

/-- A regex-mode run preserves the mode fields and never introduces a
registry entry for a filename none of its events carry. -/
theorem runHook_regex_inv (j : Nat → Nat) (f : String) (p : String → Bool) :
    ∀ (evs : List Event) (gs gs3 : GlobalState),
      gs.source_filename = none →
      gs.source_regex = some p →
      lookupReg gs.files f = none →
      (∀ e ∈ evs, e.file ≠ f) →
      runHook j gs evs = some gs3 →
      gs3.source_filename = none ∧ lookupReg gs3.files f = none := by
  intro evs
  induction evs with
  | nil =>
    intro gs gs3 h1 h2 h3 h4 hr
    simp [runHook] at hr
    subst hr
    exact ⟨h1, h3⟩
  | cons ev rest ih =>
    intro gs gs3 h1 h2 h3 h4 hr
    simp only [runHook] at hr
    cases hh : profiler_hook j gs ev with
    | none => simp only [hh] at hr; simp at hr
    | some gs2 =>
      simp only [hh] at hr
      have hfe : f ≠ ev.file := fun hc => (h4 ev (by simp)) hc.symm
      simp only [profiler_hook, h1, h2] at hh
      cases hk : hookRegex p j gs.files ev with
      | none => simp only [hk] at hh; simp at hh
      | some st2 =>
        simp only [hk] at hh
        simp at hh
        have hlk2 : lookupReg st2 f = none := by
          rw [hookRegex_lookup_other p j gs.files st2 ev f hfe hk]
          exact h3
        subst hh
        exact ih { enabled := gs.enabled, source_filename := none, file := gs.file,
                   source_regex := some p, files := st2 } gs3 rfl rfl hlk2
          (fun e he => h4 e (List.mem_cons_of_mem _ he)) hr

/-- A report produced by `summarize_files` has no row for a filename
absent from the registry. -/
theorem summarize_lookup_none :
    ∀ (st : RegState) (rep : Report) (f : String),
      summarize_files st = some rep → lookupReg st f = none → lookupRep rep f = none := by
  intro st
  induction st with
  | nil =>
    intro rep f h hl
    simp [summarize_files] at h
    subst h
    rfl
  | cons he rest ih =>
    obtain ⟨g, e⟩ := he
    intro rep f h hl
    cases e with
    | notMatched => simp [summarize_files] at h
    | matched sf =>
      simp only [summarize_files] at h
      cases hs : summarize_files rest with
      | none => simp only [hs] at h; simp at h
      | some r =>
        simp only [hs] at h
        simp at h
        have hg : ¬ (g = f) := by
          intro hc
          simp only [lookupReg] at hl
          rw [if_pos hc] at hl
          exact Option.noConfusion hl
        have hl2 : lookupReg rest f = none := by
          simp only [lookupReg] at hl
          rw [if_neg hg] at hl
          exact hl
        subst h
        simp only [lookupRep]
        rw [if_neg hg]
        exact ih r f hs hl2

/-- The report of a regex-mode session run from an empty registry has no
row for a filename no event carried. -/
theorem lineprofRun_regex_absent (keepNeg : Bool) (j : Nat → Nat)
    (p : String → Bool) (gs1 : GlobalState) (evs : List Event)
    (f : String) (rep : Report)
    (h1 : gs1.source_filename = none) (h2 : gs1.source_regex = some p)
    (hfiles : gs1.files = [])
    (hne : ∀ e ∈ evs, e.file ≠ f)
    (hrep : reportOf (lineprofRun keepNeg j gs1 evs) = some rep) :
    lookupRep rep f = none := by
  simp only [lineprofRun] at hrep
  cases hr : runHook j { gs1 with
      files := cleanup_files keepNeg gs1.files,
      file := { gs1.file with lines := [] },
      enabled := true } evs with
  | none => simp only [hr] at hrep; simp [reportOf] at hrep
  | some gs3 =>
    simp only [hr] at hrep
    have hinv := runHook_regex_inv j f p evs
      { gs1 with
        files := cleanup_files keepNeg gs1.files,
        file := { gs1.file with lines := [] },
        enabled := true } gs3
      h1 h2
      (show lookupReg (cleanup_files keepNeg gs1.files) f = none by
        rw [hfiles]; rfl)
      hne hr
    obtain ⟨hsf3, hlk3⟩ := hinv
    simp only [hsf3] at hrep
    cases hsum : summarize_files gs3.files with
    | none => simp only [hsum] at hrep; simp [reportOf] at hrep
    | some r =>
      simp only [hsum] at hrep
      simp [reportOf] at hrep
      subst hrep
      exact summarize_lookup_none gs3.files r f hsum hlk3

/-- C10: in single-file mode the report always contains the configured
filename as a key — with zero events for that file it maps to the empty
array, since the single-file row is emitted unconditionally
(rblineprof.c lines 179-184) over `nlines = 0` slots — whereas in
pattern mode a file with zero events never enters the registry
(rblineprof.c lines 65-79) and so is absent from the report built by
`summarize_files` (lines 185-187). -/
theorem C10_report_keys :
    (∀ (keepNeg : Bool) (j : Nat → Nat) (s : String) (gs : GlobalState)
        (evs : List Event), gs.enabled = false → (∀ e ∈ evs, e.file ≠ s) →
        reportOf (lineprof keepNeg j gs (Selector.str s) true evs)
          = some [(s, [])]) ∧
    (∀ (keepNeg : Bool) (j : Nat → Nat) (p : String → Bool) (gs : GlobalState)
        (evs : List Event) (f : String) (rep : Report),
        gs.enabled = false → gs.files = [] → (∀ e ∈ evs, e.file ≠ f) →
        reportOf (lineprof keepNeg j gs (Selector.regex p) true evs) = some rep →
        lookupRep rep f = none) := by
  constructor
  · intro keepNeg j s gs evs hen hne
    have hlp : lineprof keepNeg j gs (Selector.str s) true evs
        = lineprofRun keepNeg j { gs with source_filename := some s } evs := by
      simp [lineprof, hen]
    rw [hlp]
    simp only [lineprofRun]
    rw [runHook_single_frame j s evs
      { enabled := true, source_filename := some s,
        file := { lines := [], last_time := gs.file.last_time,
                  last_line := gs.file.last_line },
        source_regex := gs.source_regex,
        files := cleanup_files keepNeg gs.files } rfl hne]
    rfl
  · intro keepNeg j p gs evs f rep hen hfiles hne hrep
    have hlp : lineprof keepNeg j gs (Selector.regex p) true evs
        = lineprofRun keepNeg j
            { gs with source_regex := some p, source_filename := none } evs := by
      simp [lineprof, hen]
    rw [hlp] at hrep
    exact lineprofRun_regex_absent keepNeg j p
      { gs with source_regex := some p, source_filename := none } evs f rep
      rfl rfl hfiles hne hrep

/-- Witness for C10_report_keys: a single-file session on `a` whose only
event is for `b`, and an empty pattern session probed for `z`. -/
theorem C10_report_keys_witness :
    reportOf (lineprof false j0 init_state (Selector.str ("a")) true [⟨"b", 1, 5⟩])
      = some [(("a"), [])] ∧
    lookupRep [] ("z") = none := by
  constructor
  · exact C10_report_keys.1 false j0 ("a") init_state [⟨"b", 1, 5⟩] rfl (by decide)
  · exact C10_report_keys.2 false j0 (fun _ => true) init_state [] ("z") []
      rfl rfl (by decide) rfl

end RBLineprof
